import Mathlib

/-! Formal model of the event-aligned epoching pipeline of the repository.
The repository's source file (`tutorials/preprocessing/90_eyetracking_data.py`)
is a narrated tutorial script whose computational steps are library calls
(`read_raw_eyelink`, `raw.crop`, `find_events`, `Epochs`, `pick_types`,
`average`); the library code itself is not part of the source tree, so the
components below are modelled from the specification of that pipeline
(Channel/Sample Store, Event Extractor, Annotation Filter, Epoch Builder,
Averager).  Sample values and times are exact rationals. -/

/-- Modelled from the spec: a Sample Series — ordered channel names, a fixed
sampling rate (Hz) and a 2-D sample buffer (channels × samples).  It stands in
for the `raw` object produced by `read_raw_eyelink`, which is missing from the
source tree. -/
structure SampleSeries where
  chNames : List String
  rate : ℚ
  data : List (List ℚ)
deriving DecidableEq

/-- Modelled from the spec: an Annotation — a labelled time interval with
onset and duration in seconds, as produced for blinks and messages by the
missing `read_raw_eyelink` parser. -/
structure Annotation where
  onset : ℚ
  duration : ℚ
  description : String
deriving DecidableEq

/-- Modelled from the spec: an Event — a discrete timestamped marker with a
sample index and an integer code, as produced by the missing `find_events`. -/
structure Event where
  sample : ℕ
  code : ℤ
deriving DecidableEq

/-- Modelled from the spec: an Epoch — a fixed-length window of the series
anchored at one event, with the source event code and a rejected flag, as
stored by the missing `Epochs` class. -/
structure Epoch where
  code : ℤ
  data : List (List ℚ)
  rejected : Bool
deriving DecidableEq

/-- Modelled from the spec: the collection returned by the Epoch Builder,
together with the drop count for windows outside the series bounds. -/
structure EpochCollection where
  chNames : List String
  epochs : List Epoch
  dropped : ℕ
deriving DecidableEq

/-- Number of samples per channel (all channels share one time base). -/
def numSamples (s : SampleSeries) : ℕ := (s.data.headD []).length

/-- Modelled from the spec: deterministic round-half-to-even conversion used
for time-to-sample-index conversion. -/
def roundHalfEven (q : ℚ) : ℤ :=
  if q - ⌊q⌋ < 1/2 then ⌊q⌋
  else if (1:ℚ)/2 < q - ⌊q⌋ then ⌊q⌋ + 1
  else if ⌊q⌋ % 2 = 0 then ⌊q⌋ else ⌊q⌋ + 1

/-- Time-to-sample-index conversion of the Channel/Sample Store. -/
def timeToIndex (rate t : ℚ) : ℤ := roundHalfEven (t * rate)

/-- Errors of the Channel/Sample Store. -/
inductive SliceError where
  | ChannelNotFound
  | OutOfRange
deriving DecidableEq

/-- Modelled from the spec: `slice(channel_name, t_start, t_end)` of the
Channel/Sample Store, standing in for the windowed access of the missing
`raw` container (`raw.crop`).  It fails with `ChannelNotFound` for an unknown
channel and with `OutOfRange` for a window outside the recorded duration. -/
def sliceSeries (s : SampleSeries) (ch : String) (t0 t1 : ℚ) : Except SliceError (List ℚ) :=
  if ch ∈ s.chNames then
    let i := s.chNames.findIdx (fun n => n == ch)
    let a := timeToIndex s.rate t0
    let b := timeToIndex s.rate t1
    if 0 ≤ a ∧ a ≤ b ∧ b < (numSamples s : ℤ) then
      .ok (((s.data.getD i []).drop a.toNat).take (b - a + 1).toNat)
    else .error .OutOfRange
  else .error .ChannelNotFound

/-- Default bad-label markers of the Annotation Filter. -/
def defaultBadLabels : List String := ["BAD_"]

/-- Modelled from the spec: `mark_bad(annotations, bad_prefixes)` of the
Annotation Filter — flags exactly the annotations whose label starts with a
configured marker, standing in for the `BAD_` handling of the missing
annotation machinery. -/
def markBad (anns : List Annotation) (bps : List String) : List Annotation :=
  anns.filter (fun a => bps.any (fun b => a.description.startsWith b))

/-- Integer cast truncating toward zero, used by the Event Extractor. -/
def truncQ (q : ℚ) : ℤ := if 0 ≤ q then ⌊q⌋ else ⌈q⌉

/-- Row of samples of a named channel. -/
def chRow (s : SampleSeries) (ch : String) : List ℚ :=
  s.data.getD (s.chNames.findIdx (fun n => n == ch)) []

/-- Integer-cast codes of a designated channel. -/
def chCodes (s : SampleSeries) (ch : String) : List ℤ := (chRow s ch).map truncQ

/-- Number of samples a new code must persist to satisfy `min_duration`
seconds (at least one sample). -/
def minSamples (rate md : ℚ) : ℕ := max 1 (⌈md * rate⌉.toNat)

/-- A code transition at sample `i`: the integer-cast code differs from the
previous sample's code (no transition at sample 0). -/
def isTransition (codes : List ℤ) (i : ℕ) : Bool :=
  decide (1 ≤ i) && (codes.getD i 0 != codes.getD (i - 1) 0)

/-- The new code persists for `req` samples starting at `i`, with enough
trailing samples available. -/
def persists (codes : List ℤ) (req i : ℕ) : Bool :=
  decide (i + req ≤ codes.length) &&
    (List.range req).all (fun k => codes.getD (i + k) 0 == codes.getD i 0)

/-- An accepted edge: a code transition whose new code persists long enough. -/
def acceptEdge (codes : List ℤ) (req i : ℕ) : Bool :=
  isTransition codes i && persists codes req i

/-- Modelled from the spec: `extract_events(series, channel_name,
min_duration)` of the Event Extractor, standing in for the missing
`find_events`.  It emits one Event per accepted edge, at the sample index
where the edge first occurred. -/
def extractEvents (s : SampleSeries) (ch : String) (md : ℚ) : List Event :=
  let codes := chCodes s ch
  let req := minSamples s.rate md
  ((List.range codes.length).filter (fun i => acceptEdge codes req i)).map
    (fun i => { sample := i, code := codes.getD i 0 })

/-- Time of an event in seconds. -/
def eventTime (s : SampleSeries) (e : Event) : ℚ := (e.sample : ℚ) / s.rate

/-- First sample index of the epoch window of an event. -/
def epochStartIdx (s : SampleSeries) (tmin : ℚ) (e : Event) : ℤ :=
  (e.sample : ℤ) + roundHalfEven (tmin * s.rate)

/-- Last sample index of the epoch window of an event. -/
def epochEndIdx (s : SampleSeries) (tmax : ℚ) (e : Event) : ℤ :=
  (e.sample : ℤ) + roundHalfEven (tmax * s.rate)

/-- Common window length of all epochs of a collection. -/
def winLen (s : SampleSeries) (tmin tmax : ℚ) : ℕ :=
  (roundHalfEven (tmax * s.rate) - roundHalfEven (tmin * s.rate) + 1).toNat

/-- The epoch window of an event lies fully within the series bounds. -/
def epochInBounds (s : SampleSeries) (tmin tmax : ℚ) (e : Event) : Bool :=
  decide (0 ≤ epochStartIdx s tmin e) &&
    decide (epochEndIdx s tmax e < (numSamples s : ℤ))

/-- A closed time interval `[lo, hi]` intersects an annotation's interval,
even partially. -/
def overlapsInterval (lo hi : ℚ) (a : Annotation) : Bool :=
  decide (lo ≤ a.onset + a.duration) && decide (a.onset ≤ hi)

/-- The window `[event_time + tmin, event_time + tmax]` intersects some bad
interval. -/
def overlapsBad (s : SampleSeries) (tmin tmax : ℚ) (bad : List Annotation)
    (e : Event) : Bool :=
  bad.any (overlapsInterval (eventTime s e + tmin) (eventTime s e + tmax))

/-- Window of `len` samples of every channel starting at index `start`. -/
def windowData (s : SampleSeries) (start : ℤ) (len : ℕ) : List (List ℚ) :=
  s.data.map (fun row => (row.drop start.toNat).take len)

/-- The epoch extracted for one event, marked rejected when its window
intersects any bad interval. -/
def mkEpoch (s : SampleSeries) (tmin tmax : ℚ) (bad : List Annotation)
    (e : Event) : Epoch :=
  { code := e.code
    data := windowData s (epochStartIdx s tmin e) (winLen s tmin tmax)
    rejected := overlapsBad s tmin tmax bad e }

/-- Events whose code is in the event-code map, in event-time order. -/
def selectEvents (events : List Event) (codeMap : List ℤ) : List Event :=
  events.filter (fun e => codeMap.contains e.code)

/-- One step of the Epoch Builder loop: an in-bounds window is appended as an
epoch, an out-of-bounds window only increments the drop count. -/
def buildStep (s : SampleSeries) (tmin tmax : ℚ) (bad : List Annotation)
    (acc : List Epoch × ℕ) (e : Event) : List Epoch × ℕ :=
  if epochInBounds s tmin tmax e then (acc.1 ++ [mkEpoch s tmin tmax bad e], acc.2)
  else (acc.1, acc.2 + 1)

/-- Modelled from the spec: `build_epochs(series, events, event_code_map,
tmin, tmax, bad_intervals)` of the Epoch Builder, standing in for the missing
`Epochs` construction. -/
def buildEpochs (s : SampleSeries) (events : List Event) (codeMap : List ℤ)
    (tmin tmax : ℚ) (bad : List Annotation) : EpochCollection :=
  let r := (selectEvents events codeMap).foldl (buildStep s tmin tmax bad) ([], 0)
  { chNames := s.chNames, epochs := r.1, dropped := r.2 }

/-- Error of the Averager. -/
inductive AvgError where
  | EmptyInput
deriving DecidableEq

/-- Non-rejected epochs of a collection. -/
def retainedOf (c : EpochCollection) : List Epoch :=
  c.epochs.filter (fun ep => !ep.rejected)

/-- Sample-wise sum of two rows. -/
def addRow (r1 r2 : List ℚ) : List ℚ := List.zipWith (fun x y => x + y) r1 r2

/-- Sample-wise sum of two windows, per channel. -/
def addData (d1 d2 : List (List ℚ)) : List (List ℚ) := List.zipWith addRow d1 d2

/-- Divide every sample of a row by `n`. -/
def scaleRow (n : ℚ) (r : List ℚ) : List ℚ := r.map (fun x => x / n)

/-- Modelled from the spec: `average(epoch_collection)` of the Averager,
standing in for the missing `epochs.average()`.  It sums the non-rejected
epochs sample-wise and divides by their number, and fails with `EmptyInput`
when no non-rejected epoch remains. -/
def average (c : EpochCollection) : Except AvgError (List (List ℚ)) :=
  match retainedOf c with
  | [] => .error .EmptyInput
  | e :: rest =>
    .ok ((rest.foldl (fun acc ep => addData acc ep.data) e.data).map
      (scaleRow ((rest.length + 1 : ℕ) : ℚ)))

/-- Channel-keeping mask of a pick: one flag per channel of the collection. -/
def keepMask (chNames names : List String) : List Bool :=
  chNames.map (fun n => names.contains n)

/-- Rows of a window selected by a mask. -/
def pickRows : List Bool → List (List ℚ) → List (List ℚ)
  | [], _ => []
  | _, [] => []
  | true :: ms, r :: rs => r :: pickRows ms rs
  | false :: ms, _ :: rs => pickRows ms rs

/-- Restriction of one epoch to the masked channels. -/
def pickEpoch (mask : List Bool) (ep : Epoch) : Epoch :=
  { ep with data := pickRows mask ep.data }

/-- Modelled from the spec: the `pick(channel_names)` view of an
EpochCollection, standing in for the missing `pick_types`. -/
def pickCollection (c : EpochCollection) (names : List String) : EpochCollection :=
  { chNames := c.chNames.filter (fun n => names.contains n)
    epochs := c.epochs.map (pickEpoch (keepMask c.chNames names))
    dropped := c.dropped }

/-- Every row of a window has length `ns`. -/
def RowsLen (d : List (List ℚ)) (ns : ℕ) : Prop := ∀ row ∈ d, row.length = ns

/-- A window has `nc` channel rows, each of `ns` samples. -/
def Shaped (d : List (List ℚ)) (nc ns : ℕ) : Prop := d.length = nc ∧ RowsLen d ns

instance (d : List (List ℚ)) (ns : ℕ) : Decidable (RowsLen d ns) :=
  inferInstanceAs (Decidable (∀ row ∈ d, row.length = ns))

instance (d : List (List ℚ)) (nc ns : ℕ) : Decidable (Shaped d nc ns) :=
  inferInstanceAs (Decidable (_ ∧ _))

instance {ε α : Type} [DecidableEq ε] [DecidableEq α] : DecidableEq (Except ε α) :=
  fun x y =>
  match x, y with
  | .error a, .error b =>
    if h : a = b then .isTrue (by rw [h]) else .isFalse (by simp [h])
  | .ok a, .ok b =>
    if h : a = b then .isTrue (by rw [h]) else .isFalse (by simp [h])
  | .error _, .ok _ => .isFalse (by simp)
  | .ok _, .error _ => .isFalse (by simp)

/-! Concrete inputs used by the witness theorems. -/

/-- Demo series with a pupil channel and a DIN channel, rate 10 Hz. -/
def demoDIN : SampleSeries :=
  { chNames := ["pupil", "DIN"]
    rate := 10
    data := [List.replicate 12 (5:ℚ), [0,0,3,3,3,3,0,0,2,2,2,0]] }

/-- Demo 10-second series: 100 samples at 10 Hz. -/
def demo10s : SampleSeries :=
  { chNames := ["pupil"], rate := 10, data := [List.replicate 100 (7:ℚ)] }

/-- Demo collection whose only epoch is rejected. -/
def demoAllRejected : EpochCollection :=
  { chNames := ["pupil"], epochs := [⟨3, [[1, 2]], true⟩], dropped := 0 }

/-! Helper lemmas. -/

theorem roundHalfEven_add_half (n : ℤ) :
    roundHalfEven ((n : ℚ) + 1/2) = if n % 2 = 0 then n else n + 1 := by
  have hf : ⌊(n : ℚ) + 1/2⌋ = n := by
    rw [Int.floor_int_add]
    norm_num
  have h12 : ((n : ℚ) + 1/2) - (n : ℚ) = 1/2 := by ring
  unfold roundHalfEven
  rw [hf, h12]
  simp [lt_irrefl]

/-! Claim theorems. -/

/-- C9: `slice` fails with `ChannelNotFound` whenever the channel name is
absent, fails with `OutOfRange` (rather than zero-padding) whenever the
requested window extends beyond the recorded duration, and converts times to
sample indices by rounding half to even. -/
theorem C9_sliceSeries_errors_and_rounding (s : SampleSeries) (ch : String) (t0 t1 : ℚ) :
    (ch ∉ s.chNames → sliceSeries s ch t0 t1 = .error .ChannelNotFound) ∧
    (ch ∈ s.chNames →
      ¬ (0 ≤ timeToIndex s.rate t0 ∧ timeToIndex s.rate t0 ≤ timeToIndex s.rate t1 ∧
          timeToIndex s.rate t1 < (numSamples s : ℤ)) →
      sliceSeries s ch t0 t1 = .error .OutOfRange) ∧
    (∀ n : ℤ, roundHalfEven ((n : ℚ) + 1/2) = if n % 2 = 0 then n else n + 1) := by
  refine ⟨fun h => ?_, fun h1 h2 => ?_, roundHalfEven_add_half⟩
  · simp only [sliceSeries]
    rw [if_neg h]
  · simp only [sliceSeries]
    rw [if_pos h1, if_neg h2]

/-- C9 witness: on the demo series, an unknown channel yields
`ChannelNotFound` and a window past the recorded duration yields
`OutOfRange`. -/
theorem C9_witness :
    ("zz" ∉ demoDIN.chNames ∧ sliceSeries demoDIN "zz" 0 1 = .error .ChannelNotFound) ∧
    ("pupil" ∈ demoDIN.chNames ∧ sliceSeries demoDIN "pupil" 0 5 = .error .OutOfRange) := by
  refine ⟨⟨by with_unfolding_all decide, ?_⟩, ⟨by with_unfolding_all decide, ?_⟩⟩
  · exact (C9_sliceSeries_errors_and_rounding demoDIN "zz" 0 1).1
      (by with_unfolding_all decide)
  · exact (C9_sliceSeries_errors_and_rounding demoDIN "pupil" 0 5).2.1
      (by with_unfolding_all decide) (by with_unfolding_all decide)

/-- C8: `mark_bad` flags exactly the annotations whose label starts with a
configured marker (default `BAD_`), returns a sub-sequence of its unchanged
input (pure, no mutation), and is idempotent. -/
theorem C8_markBad_exact_pure_idempotent (anns : List Annotation) (bps : List String) :
    (∀ a, a ∈ markBad anns bps ↔
      a ∈ anns ∧ ∃ p ∈ bps, a.description.startsWith p = true) ∧
    markBad (markBad anns bps) bps = markBad anns bps ∧
    (markBad anns bps).Sublist anns ∧
    (∀ a ∈ markBad anns defaultBadLabels, a.description.startsWith "BAD_" = true) := by
  refine ⟨fun a => ?_, ?_, List.filter_sublist _, fun a ha => ?_⟩
  · simp [markBad, List.mem_filter, List.any_eq_true]
  · unfold markBad
    rw [List.filter_filter]
    simp only [Bool.and_self]
  · simp only [markBad, defaultBadLabels, List.mem_filter, List.any_eq_true,
      List.mem_singleton] at ha
    obtain ⟨-, p, hp, hs⟩ := ha
    exact hp ▸ hs

/-- C8 witness: `mark_bad` on a concrete annotation list keeps exactly the
`BAD_`-labelled annotation and a second application changes nothing. -/
theorem C8_witness :
    ((⟨1, 2, "BAD_blink"⟩ : Annotation) ∈
      markBad [⟨1, 2, "BAD_blink"⟩, ⟨3, 1, "msg"⟩] ["BAD_"]) ∧
    markBad (markBad [⟨1, 2, "BAD_blink"⟩, ⟨3, 1, "msg"⟩] ["BAD_"]) ["BAD_"]
      = markBad [⟨1, 2, "BAD_blink"⟩, ⟨3, 1, "msg"⟩] ["BAD_"] := by
  refine ⟨?_, (C8_markBad_exact_pure_idempotent [⟨1, 2, "BAD_blink"⟩, ⟨3, 1, "msg"⟩] ["BAD_"]).2.1⟩
  exact ((C8_markBad_exact_pure_idempotent [⟨1, 2, "BAD_blink"⟩, ⟨3, 1, "msg"⟩] ["BAD_"]).1 _).mpr
    ⟨by with_unfolding_all decide, "BAD_", by simp, by with_unfolding_all decide⟩

/-- C2: `average` fails with `EmptyInput` exactly when the collection has
zero non-rejected epochs, and in that case returns no result. -/
theorem C2_average_emptyInput_iff (c : EpochCollection) :
    average c = .error .EmptyInput ↔ retainedOf c = [] := by
  unfold average
  cases h : retainedOf c with
  | nil => simp
  | cons e rest => simp

/-- C2 witness: on a collection whose only epoch is rejected, `average`
fails with `EmptyInput`. -/
theorem C2_witness : average demoAllRejected = .error .EmptyInput :=
  (C2_average_emptyInput_iff demoAllRejected).mpr (by with_unfolding_all decide)

theorem minSamples_mono {rate d1 d2 : ℚ} (hr : 0 ≤ rate) (h : d1 ≤ d2) :
    minSamples rate d1 ≤ minSamples rate d2 := by
  unfold minSamples
  have hc : ⌈d1 * rate⌉ ≤ ⌈d2 * rate⌉ :=
    Int.ceil_le_ceil (mul_le_mul_of_nonneg_right h hr)
  exact max_le_max le_rfl (Int.toNat_le_toNat hc)

theorem acceptEdge_anti (codes : List ℤ) {r1 r2 i : ℕ} (h : r1 ≤ r2)
    (ha : acceptEdge codes r2 i = true) : acceptEdge codes r1 i = true := by
  simp only [acceptEdge, persists, Bool.and_eq_true, decide_eq_true_eq,
    List.all_eq_true, List.mem_range] at ha ⊢
  obtain ⟨ht, hlen, hall⟩ := ha
  exact ⟨ht, by omega, fun k hk => hall k (by omega)⟩

theorem minSamples_zero (rate : ℚ) : minSamples rate 0 = 1 := by
  unfold minSamples
  simp

theorem persists_one (codes : List ℤ) (i : ℕ) (hi : i < codes.length) :
    persists codes 1 i = true := by
  simp only [persists, Bool.and_eq_true, decide_eq_true_eq, List.all_eq_true,
    List.mem_range]
  exact ⟨by omega, fun k hk => by simp [Nat.lt_one_iff.mp hk]⟩

theorem acceptEdge_one (codes : List ℤ) (i : ℕ) (hi : i < codes.length) :
    acceptEdge codes 1 i = isTransition codes i := by
  rw [acceptEdge, persists_one codes i hi, Bool.and_true]

/-- C5: `extract_events` is antitone in `min_duration` — for d1 ≤ d2 the
number of events found with threshold d2 is at most the number found with
threshold d1. -/
theorem C5_extractEvents_antitone (s : SampleSeries) (ch : String) (d1 d2 : ℚ)
    (hr : 0 ≤ s.rate) (h : d1 ≤ d2) :
    (extractEvents s ch d2).length ≤ (extractEvents s ch d1).length := by
  simp only [extractEvents, List.length_map]
  rw [← List.countP_eq_length_filter, ← List.countP_eq_length_filter]
  exact List.countP_mono_left fun i _ => acceptEdge_anti _ (minSamples_mono hr h)

/-- C5 witness: on the demo DIN channel, raising `min_duration` from 0 to 1
second does not increase the event count. -/
theorem C5_witness :
    (0 ≤ demoDIN.rate ∧ (0 : ℚ) ≤ 1) ∧
    (extractEvents demoDIN "DIN" 1).length ≤ (extractEvents demoDIN "DIN" 0).length :=
  ⟨⟨by with_unfolding_all decide, by with_unfolding_all decide⟩,
   C5_extractEvents_antitone demoDIN "DIN" 0 1 (by with_unfolding_all decide)
     (by with_unfolding_all decide)⟩

/-- C6: with `min_duration = 0`, `extract_events` returns exactly one event
per code transition (its sample indices are exactly the transition indices),
and for every `min_duration` the events are in strictly increasing sample
order — in particular no two events share a sample. -/
theorem C6_extractEvents_transitions_sorted (s : SampleSeries) (ch : String) :
    (extractEvents s ch 0).map Event.sample
      = (List.range (chCodes s ch).length).filter (fun i => isTransition (chCodes s ch) i) ∧
    ∀ md : ℚ, ((extractEvents s ch md).map Event.sample).Pairwise (· < ·) := by
  have hid : ∀ codes : List ℤ,
      (Event.sample ∘ fun i => ({ sample := i, code := codes.getD i 0 } : Event)) = id :=
    fun codes => rfl
  constructor
  · simp only [extractEvents, List.map_map, hid, List.map_id]
    exact List.filter_congr fun i hi => by
      rw [minSamples_zero, acceptEdge_one _ _ (List.mem_range.mp hi)]
  · intro md
    simp only [extractEvents, List.map_map, hid, List.map_id]
    exact List.Pairwise.sublist (List.filter_sublist _) (List.pairwise_lt_range _)

/-- C7: every emitted event sits at the sample index where the edge first
occurred (a code transition, hence not at the very start), carries the code
at that index, and leaves enough trailing samples to verify `min_duration`
(a change too close to the end of the series produces no event). -/
theorem C7_event_at_edge (s : SampleSeries) (ch : String) (md : ℚ) (e : Event)
    (he : e ∈ extractEvents s ch md) :
    1 ≤ e.sample ∧ isTransition (chCodes s ch) e.sample = true ∧
    e.sample + minSamples s.rate md ≤ (chCodes s ch).length ∧
    e.code = (chCodes s ch).getD e.sample 0 := by
  simp only [extractEvents, List.mem_map, List.mem_filter, List.mem_range] at he
  obtain ⟨i, ⟨hi, hacc⟩, rfl⟩ := he
  simp only [acceptEdge, persists, isTransition, Bool.and_eq_true,
    decide_eq_true_eq] at hacc
  obtain ⟨⟨h1, h2⟩, h3, h4⟩ := hacc
  refine ⟨h1, ?_, h3, rfl⟩
  simp only [isTransition, Bool.and_eq_true, decide_eq_true_eq]
  exact ⟨h1, h2⟩

/-- C7 witness: on the demo DIN channel with `min_duration = 0.02` s the
event at sample 2 is emitted at the edge index, with the new code, and with
enough trailing samples. -/
theorem C7_witness :
    ((⟨2, 3⟩ : Event) ∈ extractEvents demoDIN "DIN" (1/50)) ∧
    (1 ≤ 2 ∧ isTransition (chCodes demoDIN "DIN") 2 = true ∧
      2 + minSamples demoDIN.rate (1/50) ≤ (chCodes demoDIN "DIN").length ∧
      (3 : ℤ) = (chCodes demoDIN "DIN").getD 2 0) :=
  ⟨by with_unfolding_all decide,
   C7_event_at_edge demoDIN "DIN" (1/50) ⟨2, 3⟩ (by with_unfolding_all decide)⟩

theorem buildEpochs_foldl (s : SampleSeries) (tmin tmax : ℚ) (bad : List Annotation)
    (l : List Event) (acc : List Epoch × ℕ) :
    l.foldl (buildStep s tmin tmax bad) acc
      = (acc.1 ++ (l.filter (epochInBounds s tmin tmax)).map (mkEpoch s tmin tmax bad),
         acc.2 + (l.filter (fun e => ! epochInBounds s tmin tmax e)).length) := by
  induction l generalizing acc with
  | nil => simp
  | cons e t ih =>
    rw [List.foldl_cons, ih]
    by_cases h : epochInBounds s tmin tmax e = true
    · simp [buildStep, h, List.filter_cons]
    · have h' : epochInBounds s tmin tmax e = false := by
        exact Bool.not_eq_true _ ▸ h
      simp [buildStep, h', List.filter_cons]
      omega

theorem buildEpochs_spec (s : SampleSeries) (events : List Event) (codeMap : List ℤ)
    (tmin tmax : ℚ) (bad : List Annotation) :
    (buildEpochs s events codeMap tmin tmax bad).epochs
        = ((selectEvents events codeMap).filter (epochInBounds s tmin tmax)).map
            (mkEpoch s tmin tmax bad)
      ∧ (buildEpochs s events codeMap tmin tmax bad).dropped
        = ((selectEvents events codeMap).filter
            (fun e => ! epochInBounds s tmin tmax e)).length := by
  unfold buildEpochs
  rw [buildEpochs_foldl]
  simp

theorem filter_length_partition (l : List Event) (p : Event → Bool) :
    (l.filter p).length + (l.filter (fun e => ! p e)).length = l.length := by
  induction l with
  | nil => rfl
  | cons e t ih =>
    by_cases h : p e = true
    · simp [List.filter_cons, h]
      omega
    · have h' : p e = false := Bool.not_eq_true _ ▸ h
      simp [List.filter_cons, h']
      omega

/-- C4: epochs whose window falls partially or fully outside the series
bounds are dropped entirely — the collection holds exactly the in-bounds
windows, the drop count equals the number of out-of-bounds selected events,
kept plus dropped exhaust the selected events — and in the 10-second demo
series an event at t = 9.9 s with tmax = 1 s yields drop-count 1 and no
epoch. -/
theorem C4_out_of_bounds_dropped_counted (s : SampleSeries) (events : List Event)
    (codeMap : List ℤ) (tmin tmax : ℚ) (bad : List Annotation) :
    ((buildEpochs s events codeMap tmin tmax bad).epochs
        = ((selectEvents events codeMap).filter (epochInBounds s tmin tmax)).map
            (mkEpoch s tmin tmax bad) ∧
      (buildEpochs s events codeMap tmin tmax bad).dropped
        = ((selectEvents events codeMap).filter
            (fun e => ! epochInBounds s tmin tmax e)).length ∧
      (buildEpochs s events codeMap tmin tmax bad).epochs.length
          + (buildEpochs s events codeMap tmin tmax bad).dropped
        = (selectEvents events codeMap).length) ∧
    ((buildEpochs demo10s [⟨99, 3⟩] [3] 0 1 []).dropped = 1 ∧
      (buildEpochs demo10s [⟨99, 3⟩] [3] 0 1 []).epochs = []) := by
  obtain ⟨he, hd⟩ := buildEpochs_spec s events codeMap tmin tmax bad
  refine ⟨⟨he, hd, ?_⟩, by with_unfolding_all decide, by with_unfolding_all decide⟩
  rw [he, hd, List.length_map]
  exact filter_length_partition _ _

/-- C4 witness: the 10-second scenario — series of 10 s, event at t = 9.9 s,
tmax = 1 s — gives drop-count 1. -/
theorem C4_witness : (buildEpochs demo10s [⟨99, 3⟩] [3] 0 1 []).dropped = 1 :=
  (C4_out_of_bounds_dropped_counted demo10s [⟨99, 3⟩] [3] 0 1 []).2.1

/-- C1: an in-bounds epoch whose window intersects any bad interval, even
partially, is marked rejected and still included in the returned collection;
and appending a rejected epoch to any collection leaves `average`
unchanged (rejected epochs are excluded from the mean). -/
theorem C1_bad_overlap_rejected_still_included :
    (∀ (s : SampleSeries) (events : List Event) (codeMap : List ℤ) (tmin tmax : ℚ)
        (bad : List Annotation) (e : Event),
      e ∈ events → codeMap.contains e.code = true →
      epochInBounds s tmin tmax e = true → overlapsBad s tmin tmax bad e = true →
      (mkEpoch s tmin tmax bad e).rejected = true ∧
      mkEpoch s tmin tmax bad e ∈ (buildEpochs s events codeMap tmin tmax bad).epochs) ∧
    (∀ (c : EpochCollection) (ep : Epoch), ep.rejected = true →
      average { c with epochs := c.epochs ++ [ep] } = average c) := by
  constructor
  · intro s events codeMap tmin tmax bad e he hc hb hov
    refine ⟨by simpa [mkEpoch] using hov, ?_⟩
    rw [(buildEpochs_spec s events codeMap tmin tmax bad).1]
    exact List.mem_map_of_mem _
      (List.mem_filter.mpr ⟨List.mem_filter.mpr ⟨he, hc⟩, hb⟩)
  · intro c ep hrej
    have hr : retainedOf { c with epochs := c.epochs ++ [ep] } = retainedOf c := by
      simp [retainedOf, List.filter_append, hrej]
    unfold average
    rw [hr]

/-- C1 witness: a concrete in-bounds epoch overlapping a `BAD_blink`
annotation is rejected yet included, and appending a rejected outlier epoch
to a collection leaves the average unchanged. -/
theorem C1_witness :
    ((mkEpoch demo10s (-(3/10)) (1/2) [⟨54/10, 1, "BAD_blink"⟩] ⟨50, 3⟩).rejected = true ∧
      mkEpoch demo10s (-(3/10)) (1/2) [⟨54/10, 1, "BAD_blink"⟩] ⟨50, 3⟩
        ∈ (buildEpochs demo10s [⟨50, 3⟩] [3] (-(3/10)) (1/2)
            [⟨54/10, 1, "BAD_blink"⟩]).epochs) ∧
    average { demoAllRejected with
      epochs := demoAllRejected.epochs ++ [⟨3, [[9, 9]], true⟩] } = average demoAllRejected :=
  ⟨C1_bad_overlap_rejected_still_included.1 demo10s [⟨50, 3⟩] [3] (-(3/10)) (1/2)
      [⟨54/10, 1, "BAD_blink"⟩] ⟨50, 3⟩ (by with_unfolding_all decide)
      (by with_unfolding_all decide) (by with_unfolding_all decide)
      (by with_unfolding_all decide),
   C1_bad_overlap_rejected_still_included.2 demoAllRejected ⟨3, [[9, 9]], true⟩
      (by with_unfolding_all decide)⟩

theorem addRow_getD (r1 r2 : List ℚ) (h : r1.length = r2.length) (j : ℕ) :
    (addRow r1 r2).getD j 0 = r1.getD j 0 + r2.getD j 0 := by
  induction r1 generalizing r2 j with
  | nil =>
    cases r2 with
    | nil => simp [addRow]
    | cons y ys => simp at h
  | cons x xs ih =>
    cases r2 with
    | nil => simp at h
    | cons y ys =>
      cases j with
      | zero => simp [addRow]
      | succ k =>
        simp only [addRow, List.zipWith_cons_cons, List.getD_cons_succ]
        exact ih ys (by simpa using h) k

theorem rowsLen_addData : ∀ {d1 d2 : List (List ℚ)} {ns : ℕ},
    RowsLen d1 ns → RowsLen d2 ns → RowsLen (addData d1 d2) ns := by
  intro d1
  induction d1 with
  | nil => intro d2 ns h1 h2 row hrow; simp [addData] at hrow
  | cons r rs ih =>
    intro d2 ns h1 h2 row hrow
    cases d2 with
    | nil => simp [addData] at hrow
    | cons t ts =>
      simp only [addData, List.zipWith_cons_cons] at hrow
      rcases List.mem_cons.mp hrow with hEq | hmem
      · subst hEq
        rw [addRow, List.length_zipWith, h1 r (List.mem_cons_self _ _),
          h2 t (List.mem_cons_self _ _)]
        exact min_self ns
      · exact ih (fun row h => h1 row (List.mem_cons_of_mem _ h))
          (fun row h => h2 row (List.mem_cons_of_mem _ h)) row hmem

theorem shaped_addData {d1 d2 : List (List ℚ)} {nc ns : ℕ}
    (h1 : Shaped d1 nc ns) (h2 : Shaped d2 nc ns) : Shaped (addData d1 d2) nc ns :=
  ⟨by rw [addData, List.length_zipWith, h1.1, h2.1, min_self], rowsLen_addData h1.2 h2.2⟩

theorem addData_getD : ∀ (d1 d2 : List (List ℚ)) (ns : ℕ), d1.length = d2.length →
    RowsLen d1 ns → RowsLen d2 ns → ∀ i j : ℕ,
    ((addData d1 d2).getD i []).getD j 0
      = (d1.getD i []).getD j 0 + (d2.getD i []).getD j 0 := by
  intro d1
  induction d1 with
  | nil =>
    intro d2 ns hlen h1 h2 i j
    obtain rfl : d2 = [] := List.length_eq_zero.mp hlen.symm
    simp [addData]
  | cons r rs ih =>
    intro d2 ns hlen h1 h2 i j
    cases d2 with
    | nil => simp at hlen
    | cons t ts =>
      cases i with
      | zero =>
        simp only [addData, List.zipWith_cons_cons, List.getD_cons_zero]
        refine addRow_getD r t ?_ j
        rw [h1 r (List.mem_cons_self _ _), h2 t (List.mem_cons_self _ _)]
      | succ k =>
        simp only [addData, List.zipWith_cons_cons, List.getD_cons_succ]
        exact ih ts ns (by simpa using hlen)
          (fun row h => h1 row (List.mem_cons_of_mem _ h))
          (fun row h => h2 row (List.mem_cons_of_mem _ h)) k j

theorem foldl_addData_shaped : ∀ (L : List Epoch) (acc : List (List ℚ)) (nc ns : ℕ),
    Shaped acc nc ns → (∀ ep ∈ L, Shaped ep.data nc ns) →
    Shaped (L.foldl (fun a ep => addData a ep.data) acc) nc ns := by
  intro L
  induction L with
  | nil => intro acc nc ns hacc _; exact hacc
  | cons e t ih =>
    intro acc nc ns hacc hL
    rw [List.foldl_cons]
    exact ih _ _ _ (shaped_addData hacc (hL e (List.mem_cons_self _ _)))
      (fun ep h => hL ep (List.mem_cons_of_mem _ h))

theorem foldl_addData_getD : ∀ (L : List Epoch) (acc : List (List ℚ)) (nc ns : ℕ),
    Shaped acc nc ns → (∀ ep ∈ L, Shaped ep.data nc ns) → ∀ i j : ℕ,
    ((L.foldl (fun a ep => addData a ep.data) acc).getD i []).getD j 0
      = (acc.getD i []).getD j 0
        + (L.map (fun ep => (ep.data.getD i []).getD j 0)).sum := by
  intro L
  induction L with
  | nil => intro acc nc ns hacc _ i j; simp
  | cons e t ih =>
    intro acc nc ns hacc hL i j
    rw [List.foldl_cons,
      ih _ nc ns (shaped_addData hacc (hL e (List.mem_cons_self _ _)))
        (fun ep h => hL ep (List.mem_cons_of_mem _ h)) i j,
      addData_getD acc e.data ns (by rw [hacc.1, (hL e (List.mem_cons_self _ _)).1])
        hacc.2 (hL e (List.mem_cons_self _ _)).2 i j]
    simp only [List.map_cons, List.sum_cons]
    ring

theorem scaleRow_getD (r : List ℚ) (n : ℚ) (j : ℕ) :
    (scaleRow n r).getD j 0 = r.getD j 0 / n := by
  induction r generalizing j with
  | nil => simp [scaleRow]
  | cons x xs ih =>
    cases j with
    | zero => simp [scaleRow]
    | succ k =>
      simp only [scaleRow, List.map_cons, List.getD_cons_succ]
      exact ih k

theorem getD_map_scaleRow (m : List (List ℚ)) (n : ℚ) (i : ℕ) :
    (m.map (scaleRow n)).getD i [] = scaleRow n (m.getD i []) := by
  induction m generalizing i with
  | nil => simp [scaleRow]
  | cons r rs ih =>
    cases i with
    | zero => simp
    | succ k =>
      simp only [List.map_cons, List.getD_cons_succ]
      exact ih k

theorem average_cons (c : EpochCollection) (e : Epoch) (rest : List Epoch)
    (hr : retainedOf c = e :: rest) :
    average c = .ok ((rest.foldl (fun acc ep => addData acc ep.data) e.data).map
      (scaleRow ((rest.length + 1 : ℕ) : ℚ))) := by
  unfold average
  rw [hr]

theorem average_ok_spec (c : EpochCollection) (nc ns : ℕ) (e : Epoch) (rest : List Epoch)
    (hr : retainedOf c = e :: rest) (hsh : ∀ ep ∈ retainedOf c, Shaped ep.data nc ns) :
    ∃ m, average c = .ok m ∧ Shaped m nc ns ∧
      ∀ i j : ℕ, (m.getD i []).getD j 0
        = ((retainedOf c).map (fun ep => (ep.data.getD i []).getD j 0)).sum
            / ((retainedOf c).length : ℚ) := by
  have hse : Shaped e.data nc ns := hsh e (hr ▸ List.mem_cons_self _ _)
  have hst : ∀ ep ∈ rest, Shaped ep.data nc ns :=
    fun ep h => hsh ep (hr ▸ List.mem_cons_of_mem _ h)
  have hms : Shaped (rest.foldl (fun acc ep => addData acc ep.data) e.data) nc ns :=
    foldl_addData_shaped rest e.data nc ns hse hst
  refine ⟨_, average_cons c e rest hr, ⟨?_, ?_⟩, ?_⟩
  · rw [List.length_map, hms.1]
  · intro row hrow
    obtain ⟨r0, hr0, rfl⟩ := List.mem_map.mp hrow
    rw [scaleRow, List.length_map]
    exact hms.2 r0 hr0
  · intro i j
    rw [getD_map_scaleRow, scaleRow_getD,
      foldl_addData_getD rest e.data nc ns hse hst i j, hr]
    simp

/-- C3: for a collection with at least one non-rejected epoch (all of window
shape `nc × ns`), `average` succeeds with a result of the same window
length whose value at each sample of each channel is the arithmetic mean of
that channel's value at that sample over the non-rejected epochs; in
particular a constant-valued channel averages to that constant. -/
theorem C3_average_is_pointwise_mean (c : EpochCollection) (nc ns : ℕ)
    (hne : retainedOf c ≠ [])
    (hsh : ∀ ep ∈ retainedOf c, Shaped ep.data nc ns) :
    ∃ m, average c = .ok m ∧ Shaped m nc ns ∧
      (∀ i j : ℕ, (m.getD i []).getD j 0
        = ((retainedOf c).map (fun ep => (ep.data.getD i []).getD j 0)).sum
            / ((retainedOf c).length : ℚ)) ∧
      ∀ (i : ℕ) (v : ℚ),
        (∀ ep ∈ retainedOf c, ∀ j < ns, (ep.data.getD i []).getD j 0 = v) →
        ∀ j < ns, (m.getD i []).getD j 0 = v := by
  obtain ⟨e, rest, hr⟩ : ∃ e rest, retainedOf c = e :: rest := by
    cases h : retainedOf c with
    | nil => exact absurd h hne
    | cons e rest => exact ⟨e, rest, rfl⟩
  obtain ⟨m, hok, hshape, hpt⟩ := average_ok_spec c nc ns e rest hr hsh
  refine ⟨m, hok, hshape, hpt, ?_⟩
  intro i v hv j hj
  rw [hpt i j,
    List.map_congr_left fun ep hep => hv ep hep j hj,
    List.map_const', List.sum_replicate, nsmul_eq_mul]
  have hlen : ((retainedOf c).length : ℚ) ≠ 0 := by
    rw [hr, List.length_cons]
    exact_mod_cast Nat.succ_ne_zero rest.length
  exact mul_div_cancel_left₀ v hlen

/-- C3 witness: a collection of two retained single-channel epochs `[1, 3]`
and `[3, 5]` averages pointwise to the mean, and a constant channel would
average to that constant. -/
theorem C3_witness :
    (retainedOf ⟨["pupil"], [⟨3, [[1, 3]], false⟩, ⟨3, [[3, 5]], false⟩], 0⟩ ≠ [] ∧
      (∀ ep ∈ retainedOf ⟨["pupil"], [⟨3, [[1, 3]], false⟩, ⟨3, [[3, 5]], false⟩], 0⟩,
        Shaped ep.data 1 2)) ∧
    (∃ m, average ⟨["pupil"], [⟨3, [[1, 3]], false⟩, ⟨3, [[3, 5]], false⟩], 0⟩ = .ok m ∧
      Shaped m 1 2 ∧
      (∀ i j : ℕ, (m.getD i []).getD j 0
        = ((retainedOf ⟨["pupil"], [⟨3, [[1, 3]], false⟩, ⟨3, [[3, 5]], false⟩], 0⟩).map
              (fun ep => (ep.data.getD i []).getD j 0)).sum
            / ((retainedOf
                ⟨["pupil"], [⟨3, [[1, 3]], false⟩, ⟨3, [[3, 5]], false⟩], 0⟩).length : ℚ)) ∧
      ∀ (i : ℕ) (v : ℚ),
        (∀ ep ∈ retainedOf ⟨["pupil"], [⟨3, [[1, 3]], false⟩, ⟨3, [[3, 5]], false⟩], 0⟩,
          ∀ j < 2, (ep.data.getD i []).getD j 0 = v) →
        ∀ j < 2, (m.getD i []).getD j 0 = v) :=
  ⟨⟨by with_unfolding_all decide, by with_unfolding_all decide⟩,
   C3_average_is_pointwise_mean ⟨["pupil"], [⟨3, [[1, 3]], false⟩, ⟨3, [[3, 5]], false⟩], 0⟩
     1 2 (by with_unfolding_all decide) (by with_unfolding_all decide)⟩

theorem pickRows_addData : ∀ (mask : List Bool) (a b : List (List ℚ)),
    pickRows mask (addData a b) = addData (pickRows mask a) (pickRows mask b) := by
  intro mask
  induction mask with
  | nil => intro a b; simp [pickRows, addData]
  | cons m ms ih =>
    intro a b
    cases a with
    | nil => simp [pickRows, addData]
    | cons ra as =>
      cases b with
      | nil => cases m <;> simp [pickRows, addData]
      | cons rb bs =>
        cases m
        · simp only [addData, List.zipWith_cons_cons, pickRows]
          exact ih as bs
        · simp only [addData, List.zipWith_cons_cons, pickRows]
          congr 1
          exact ih as bs

theorem pickRows_map (mask : List Bool) (f : List ℚ → List ℚ) :
    ∀ rows : List (List ℚ),
    pickRows mask (rows.map f) = (pickRows mask rows).map f := by
  induction mask with
  | nil => intro rows; simp [pickRows]
  | cons m ms ih =>
    intro rows
    cases rows with
    | nil => simp [pickRows]
    | cons r rs =>
      cases m
      · simp only [List.map_cons, pickRows]
        exact ih rs
      · simp only [List.map_cons, pickRows]
        rw [ih rs]

theorem pickRows_foldl (mask : List Bool) : ∀ (L : List Epoch) (acc : List (List ℚ)),
    (L.map (pickEpoch mask)).foldl (fun a ep => addData a ep.data) (pickRows mask acc)
      = pickRows mask (L.foldl (fun a ep => addData a ep.data) acc) := by
  intro L
  induction L with
  | nil => intro acc; simp
  | cons e t ih =>
    intro acc
    simp only [List.map_cons, List.foldl_cons]
    rw [show (pickEpoch mask e).data = pickRows mask e.data from rfl,
      ← pickRows_addData]
    exact ih _

theorem retained_pick (c : EpochCollection) (names : List String) :
    retainedOf (pickCollection c names)
      = (retainedOf c).map (pickEpoch (keepMask c.chNames names)) := by
  unfold retainedOf pickCollection
  rw [List.filter_map]
  congr 1

/-- C10: picking channels commutes with averaging — for a collection with at
least one non-rejected epoch, the average of the picked collection equals the
row restriction (by the same channel mask) of the average of the full
collection. -/
theorem C10_pick_commutes_average (c : EpochCollection) (names : List String)
    (hne : retainedOf c ≠ []) :
    ∃ m, average c = .ok m ∧
      average (pickCollection c names)
        = .ok (pickRows (keepMask c.chNames names) m) := by
  obtain ⟨e, rest, hr⟩ : ∃ e rest, retainedOf c = e :: rest := by
    cases h : retainedOf c with
    | nil => exact absurd h hne
    | cons e rest => exact ⟨e, rest, rfl⟩
  have hr' : retainedOf (pickCollection c names)
      = pickEpoch (keepMask c.chNames names) e
        :: rest.map (pickEpoch (keepMask c.chNames names)) := by
    rw [retained_pick, hr, List.map_cons]
  refine ⟨_, average_cons c e rest hr, ?_⟩
  rw [average_cons (pickCollection c names) _ _ hr', List.length_map,
    show (pickEpoch (keepMask c.chNames names) e).data
      = pickRows (keepMask c.chNames names) e.data from rfl,
    pickRows_foldl, ← pickRows_map]

/-- C10 witness: on a two-channel collection, picking the pupil channel and
averaging gives exactly the pupil rows of the full average. -/
theorem C10_witness :
    retainedOf ⟨["pupil", "DIN"],
        [⟨3, [[1, 3], [0, 0]], false⟩, ⟨3, [[3, 5], [2, 2]], false⟩], 0⟩ ≠ [] ∧
    ∃ m, average ⟨["pupil", "DIN"],
        [⟨3, [[1, 3], [0, 0]], false⟩, ⟨3, [[3, 5], [2, 2]], false⟩], 0⟩ = .ok m ∧
      average (pickCollection ⟨["pupil", "DIN"],
          [⟨3, [[1, 3], [0, 0]], false⟩, ⟨3, [[3, 5], [2, 2]], false⟩], 0⟩ ["pupil"])
        = .ok (pickRows (keepMask (["pupil", "DIN"] : List String) ["pupil"]) m) :=
  ⟨by with_unfolding_all decide,
   C10_pick_commutes_average ⟨["pupil", "DIN"],
      [⟨3, [[1, 3], [0, 0]], false⟩, ⟨3, [[3, 5], [2, 2]], false⟩], 0⟩ ["pupil"]
     (by with_unfolding_all decide)⟩

/-- C6 witness: on the demo DIN channel with `min_duration = 0` the emitted
samples are exactly the transition indices, in strictly increasing order. -/
theorem C6_witness :
    (extractEvents demoDIN "DIN" 0).map Event.sample
      = (List.range (chCodes demoDIN "DIN").length).filter
          (fun i => isTransition (chCodes demoDIN "DIN") i) ∧
    ((extractEvents demoDIN "DIN" 0).map Event.sample).Pairwise (· < ·) :=
  ⟨(C6_extractEvents_transitions_sorted demoDIN "DIN").1,
   (C6_extractEvents_transitions_sorted demoDIN "DIN").2 0⟩
